import Mathlib

/-!
Shallow embedding of the Enzonix DNS Go SDK (github.com/Enzonix-LLC/dns-sdk-go).

The SDK's `client.go` (Client, NewClient, functional options, APIError,
newRequest, do) and its resource-operation files (the domain-scoped client
API and the zone-scoped record API) are translated into executable Lean
definitions.  Go standard-library helpers the SDK calls — strings.TrimSpace,
strings.TrimSuffix, net/url parsing and reference resolution, percent
escaping, url.Values encoding, encoding/json unmarshalling, io.LimitReader —
are modelled after their documented semantics.  The HTTP transport is
abstracted as a function from requests to responses; resource operations are
translated in state-passing style (they receive the Client value and return
it alongside the result), mirroring the Go receiver.
-/

namespace Enzonix

/-- Go `unicode.IsSpace`: the Unicode White_Space code points. -/
def goIsSpace (c : Char) : Bool :=
  let n := c.toNat
  (decide (9 ≤ n) && decide (n ≤ 13)) || n == 32 || n == 0x85 || n == 0xA0 ||
    n == 0x1680 || (decide (0x2000 ≤ n) && decide (n ≤ 0x200A)) ||
    n == 0x2028 || n == 0x2029 || n == 0x202F || n == 0x205F || n == 0x3000

/-- Left half of Go `strings.TrimSpace`. -/
def trimLeftL (l : List Char) : List Char := l.dropWhile goIsSpace

/-- Right half of Go `strings.TrimSpace`. -/
def trimRightL (l : List Char) : List Char := (l.reverse.dropWhile goIsSpace).reverse

/-- Go `strings.TrimSpace`. -/
def trimSpace (s : String) : String := ⟨trimRightL (trimLeftL s.data)⟩

/-- Go `io.ReadAll(io.LimitReader(r, cap))` over a UTF-8 body, modelled at
character granularity: keep leading characters while their UTF-8 byte sizes
fit in `cap`.  (A read that would split one character's bytes is not
modelled; no claim exercises a body that straddles a cap.) -/
def takeBytesL : Nat → List Char → List Char
  | _, [] => []
  | cap, c :: cs => if c.utf8Size ≤ cap then c :: takeBytesL (cap - c.utf8Size) cs else []

/-- `takeBytesL` on strings. -/
def takeBytesStr (cap : Nat) (s : String) : String := ⟨takeBytesL cap s.data⟩

/-- Go `len(bytes)` of the UTF-8 encoding of a string. -/
def byteLen (l : List Char) : Nat := (l.map Char.utf8Size).sum

/-- One uppercase hex digit, as Go's percent escaping prints them. -/
def hexDigitU (n : Nat) : Char := "0123456789ABCDEF".data.getD n '0'

/-- The UTF-8 bytes of one character. -/
def utf8Bytes (c : Char) : List Nat :=
  let n := c.toNat
  if n < 0x80 then [n]
  else if n < 0x800 then [0xC0 + n / 0x40, 0x80 + n % 0x40]
  else if n < 0x10000 then [0xE0 + n / 0x1000, 0x80 + n / 0x40 % 0x40, 0x80 + n % 0x40]
  else [0xF0 + n / 0x40000, 0x80 + n / 0x1000 % 0x40, 0x80 + n / 0x40 % 0x40, 0x80 + n % 0x40]

/-- "%XY" for one byte. -/
def pctEncode (b : Nat) : List Char := ['%', hexDigitU (b / 16), hexDigitU (b % 16)]

def isAsciiAlpha (c : Char) : Bool :=
  let n := c.toNat
  (decide (65 ≤ n) && decide (n ≤ 90)) || (decide (97 ≤ n) && decide (n ≤ 122))

def isAsciiDigit (c : Char) : Bool :=
  let n := c.toNat
  decide (48 ≤ n) && decide (n ≤ 57)

def isAsciiAlphaNum (c : Char) : Bool := isAsciiAlpha c || isAsciiDigit c

/-- net/url shouldEscape = false for a path segment (mode encodePathSegment):
RFC 3986 unreserved characters plus the sub-delims Go keeps unescaped inside
one segment ('/' ';' ',' '?' are escaped). -/
def pathSegKeep (c : Char) : Bool :=
  isAsciiAlphaNum c || c == '-' || c == '_' || c == '.' || c == '~' ||
    c == '$' || c == '&' || c == '+' || c == ':' || c == '=' || c == '@'

/-- Go `url.PathEscape`. -/
def pathEscape (s : String) : String :=
  ⟨(s.data.map (fun c => if pathSegKeep c then [c] else (utf8Bytes c).flatMap pctEncode)).flatten⟩

/-- net/url shouldEscape = false for a query component. -/
def queryKeep (c : Char) : Bool :=
  isAsciiAlphaNum c || c == '-' || c == '_' || c == '.' || c == '~'

/-- Go `url.QueryEscape`: space becomes '+', unreserved characters kept, all
else percent-encoded byte by byte. -/
def queryEscape (s : String) : String :=
  ⟨(s.data.map (fun c =>
      if c == ' ' then ['+']
      else if queryKeep c then [c]
      else (utf8Bytes c).flatMap pctEncode)).flatten⟩

/-- Go `url.Values`: keys mapped to lists of values (an association list;
`valuesSet` keeps keys unique the way the SDK builds queries). -/
abbrev Values := List (String × List String)

/-- Go `url.Values.Set`. -/
def valuesSet (vs : Values) (k v : String) : Values :=
  (vs.filter (fun p => p.1 != k)) ++ [(k, [v])]

/-- Byte order on UTF-8 strings (Go sorts query keys with sort.Strings). -/
def charListLt : List Char → List Char → Bool
  | [], [] => false
  | [], _ :: _ => true
  | _ :: _, [] => false
  | a :: as, b :: bs => decide (a.toNat < b.toNat) || (a == b && charListLt as bs)

def insertByKey (p : String × List String) : Values → Values
  | [] => [p]
  | q :: rest => if charListLt p.1.data q.1.data then p :: q :: rest else q :: insertByKey p rest

/-- Keys sorted ascending, as Go `Values.Encode` iterates them. -/
def sortValues (vs : Values) : Values := vs.foldr insertByKey []

/-- Go `url.Values.Encode`. -/
def encodeValues (vs : Values) : String :=
  String.intercalate "&"
    ((sortValues vs).flatMap (fun p => p.2.map (fun v => queryEscape p.1 ++ "=" ++ queryEscape v)))

/-- Model of Go `net/url.URL`.  `path` stores the escaped path (Go's
EscapedPath); `opq` is Go's Opaque.  User info, ForceQuery, OmitHost and
RawFragment are not modelled: this SDK never produces them. -/
structure URL where
  scheme : String := ""
  opq : String := ""
  host : String := ""
  path : String := ""
  rawQuery : String := ""
  fragment : String := ""
deriving DecidableEq, Repr, Inhabited

/-- Go `strings.Cut` at the first occurrence of `c`: (before, after); the
separator is dropped, `after` is empty when `c` does not occur. -/
def cutChar (s : String) (c : Char) : String × String :=
  (⟨s.data.takeWhile (fun d => d != c)⟩, ⟨(s.data.dropWhile (fun d => d != c)).drop 1⟩)

def startsWithL : List Char → List Char → Bool
  | [], _ => true
  | _ :: _, [] => false
  | p :: ps, c :: cs => p == c && startsWithL ps cs

/-- Go `strings.HasPrefix(s, pre)`. -/
def goHasPre (s pre : String) : Bool := startsWithL pre.data s.data

def splitOnSlashGo (cur : List Char) : List Char → List (List Char)
  | [] => [cur.reverse]
  | c :: rest =>
    if c == '/' then cur.reverse :: splitOnSlashGo [] rest
    else splitOnSlashGo (c :: cur) rest

/-- `s.splitOn "/"`. -/
def splitOnSlash (s : String) : List String :=
  (splitOnSlashGo [] s.data).map (fun l => ⟨l⟩)

def asciiLower (c : Char) : Char :=
  if isAsciiAlpha c && decide (c.toNat < 97) then Char.ofNat (c.toNat + 32) else c

/-- Worker for net/url getScheme: `acc` holds the scheme candidate read so far
(reversed).  `none` is Go's "missing protocol scheme" error; otherwise the
(lowercased) scheme and the remainder, or no scheme and the whole input. -/
def getSchemeGo (orig : String) : List Char → List Char → Option (String × String)
  | _, [] => some ("", orig)
  | acc, c :: cs =>
    if isAsciiAlpha c then getSchemeGo orig (c :: acc) cs
    else if isAsciiDigit c || c == '+' || c == '-' || c == '.' then
      if acc.isEmpty then some ("", orig) else getSchemeGo orig (c :: acc) cs
    else if c == ':' then
      if acc.isEmpty then none else some (⟨acc.reverse.map asciiLower⟩, ⟨cs⟩)
    else some ("", orig)

/-- net/url getScheme. -/
def getScheme (s : String) : Option (String × String) := getSchemeGo s [] s.data

/-- net/url Parse: "first path segment in URL cannot contain colon". -/
def firstSegHasColon (s : String) : Bool :=
  (s.data.takeWhile (fun c => c != '/')).any (fun c => c == ':')

/-- Split an authority+path remainder at the first '/'. -/
def spanNoSlash (l : List Char) : List Char × List Char :=
  (l.takeWhile (fun c => c != '/'), l.dropWhile (fun c => c != '/'))

/-- Host of an authority: everything after the last '@' (user info dropped;
Go's host-character and port validation are not modelled). -/
def hostOf (auth : List Char) : String :=
  ⟨(auth.reverse.takeWhile (fun c => c != '@')).reverse⟩

/-- Model of Go `url.Parse` (viaRequest = false): fragment split, scheme
recognition (`none` on a leading ':'), the opaque form, the
first-segment-colon error, authority and path split, query split.
Percent-escape validation is not modelled: the model accepts some addresses
Go would reject, none of which a claim exercises. -/
def parseURL (rawURL : String) : Option URL :=
  let (beforeFrag, frag) := cutChar rawURL '#'
  match getScheme beforeFrag with
  | none => none
  | some (scheme, rest0) =>
    let (rest, rawQuery) := cutChar rest0 '?'
    if goHasPre rest "/" = false then
      if scheme ≠ "" then some { scheme, opq := rest, rawQuery, fragment := frag }
      else if firstSegHasColon rest then none
      else some { scheme, path := rest, rawQuery, fragment := frag }
    else if goHasPre rest "//" = true ∧ (scheme ≠ "" ∨ goHasPre rest "///" = false) then
      let (auth, pathL) := spanNoSlash (rest.data.drop 2)
      some { scheme, host := hostOf auth, path := ⟨pathL⟩, rawQuery, fragment := frag }
    else
      some { scheme, path := rest, rawQuery, fragment := frag }

/-- Go `URL.IsAbs`. -/
def URL.isAbs (u : URL) : Bool := u.scheme != ""

/-- base[: strings.LastIndex(base, "/") + 1] — the merge step of net/url
resolvePath. -/
def upToLastSlash (base : String) : String :=
  ⟨(base.data.reverse.dropWhile (fun c => c != '/')).reverse⟩

/-- Dot-segment removal over split segments; `stack` holds the output
segments in reverse.  A trailing "." or ".." leaves a trailing slash, i.e. a
final empty segment, as in net/url resolvePath. -/
def procSegs : List String → List String → List String
  | stack, [] => stack.reverse
  | stack, [seg] =>
    if seg = "." then ("" :: stack).reverse
    else if seg = ".." then ("" :: stack.tail).reverse
    else (seg :: stack).reverse
  | stack, seg :: rest =>
    if seg = "." then procSegs stack rest
    else if seg = ".." then procSegs stack.tail rest
    else procSegs (seg :: stack) rest

/-- net/url resolvePath: merge base and reference (RFC 3986 §5.3) and remove
dot segments; the result always carries a leading '/'. -/
def resolvePath (base ref : String) : String :=
  let full :=
    if ref = "" then base
    else if goHasPre ref "/" = false then upToLastSlash base ++ ref
    else ref
  if full = "" then ""
  else
    let body := if goHasPre full "/" = true then full.drop 1 else full
    "/" ++ String.intercalate "/" (procSegs [] (splitOnSlash body))

/-- Go `URL.ResolveReference` (user info untouched because it is not
modelled). -/
def resolveReference (u ref : URL) : URL :=
  let r0 := if ref.scheme = "" then { ref with scheme := u.scheme } else ref
  if ref.scheme ≠ "" ∨ ref.host ≠ "" then
    { r0 with path := resolvePath r0.path "" }
  else if ref.opq ≠ "" then
    { r0 with host := "", path := "" }
  else
    let r1 :=
      if ref.path = "" ∧ ref.rawQuery = "" then
        { r0 with rawQuery := u.rawQuery,
                  fragment := if ref.fragment = "" then u.fragment else r0.fragment }
      else r0
    { r1 with host := u.host, path := resolvePath u.path ref.path }

/-- Go `URL.String` restricted to the shapes this SDK produces (no user
info, no OmitHost). -/
def urlString (u : URL) : String :=
  (if u.scheme ≠ "" then u.scheme ++ ":" else "") ++
    (if u.opq ≠ "" then u.opq
     else
       (if (u.scheme ≠ "" ∨ u.host ≠ "") ∧ (u.host ≠ "" ∨ u.path ≠ "") then "//" ++ u.host
        else "") ++ u.path) ++
    (if u.rawQuery ≠ "" then "?" ++ u.rawQuery else "") ++
    (if u.fragment ≠ "" then "#" ++ u.fragment else "")

mutual

/-- A JSON value, as encoding/json's grammar reads one; numbers keep their
lexeme (no claim depends on numeric values). -/
inductive Json where
  | null
  | jbool (b : Bool)
  | num (lexeme : String)
  | str (s : String)
  | arr (xs : JsonList)
  | obj (fields : JsonFields)
deriving DecidableEq, Repr

inductive JsonList where
  | nil
  | cons (hd : Json) (tl : JsonList)
deriving DecidableEq, Repr

/-- Object members in source order (encoding/json processes them in order;
a later duplicate key overwrites an earlier one). -/
inductive JsonFields where
  | nil
  | cons (key : String) (val : Json) (tl : JsonFields)
deriving DecidableEq, Repr

end

/-- encoding/json whitespace. -/
def jsonWs (c : Char) : Bool := c == ' ' || c == '\t' || c == '\n' || c == '\r'

def skipWs (l : List Char) : List Char := l.dropWhile jsonWs

def hexVal (c : Char) : Option Nat :=
  if isAsciiDigit c then some (c.toNat - 48)
  else if decide (97 ≤ c.toNat) && decide (c.toNat ≤ 102) then some (c.toNat - 87)
  else if decide (65 ≤ c.toNat) && decide (c.toNat ≤ 70) then some (c.toNat - 55)
  else none

def parseHex4 : List Char → Option (Nat × List Char)
  | a :: b :: c :: d :: rest =>
    match hexVal a, hexVal b, hexVal c, hexVal d with
    | some x, some y, some z, some w => some (((x * 16 + y) * 16 + z) * 16 + w, rest)
    | _, _, _, _ => none
  | _ => none

/-- JSON string body after the opening quote.  A \u escape of a surrogate
half becomes U+FFFD (Go's replacement for an unpaired surrogate; pairing of
two surrogate escapes is not modelled, no claim uses one). -/
def parseStringBody (acc : List Char) : List Char → Option (String × List Char)
  | [] => none
  | '"' :: rest => some (⟨acc.reverse⟩, rest)
  | '\\' :: e :: rest =>
    match e with
    | '"' => parseStringBody ('"' :: acc) rest
    | '\\' => parseStringBody ('\\' :: acc) rest
    | '/' => parseStringBody ('/' :: acc) rest
    | 'b' => parseStringBody (Char.ofNat 8 :: acc) rest
    | 'f' => parseStringBody (Char.ofNat 12 :: acc) rest
    | 'n' => parseStringBody ('\n' :: acc) rest
    | 'r' => parseStringBody ('\r' :: acc) rest
    | 't' => parseStringBody ('\t' :: acc) rest
    | 'u' =>
      match rest with
      | h1 :: h2 :: h3 :: h4 :: r2 =>
        match hexVal h1, hexVal h2, hexVal h3, hexVal h4 with
        | some x, some y, some z, some w =>
          let n := ((x * 16 + y) * 16 + z) * 16 + w
          let ch := if decide (0xD800 ≤ n) && decide (n ≤ 0xDFFF) then Char.ofNat 0xFFFD
                    else Char.ofNat n
          parseStringBody (ch :: acc) r2
        | _, _, _, _ => none
      | _ => none
    | _ => none
  | c :: rest =>
    if decide (c.toNat < 0x20) then none else parseStringBody (c :: acc) rest

def parseDigits (cs : List Char) : List Char × List Char :=
  (cs.takeWhile isAsciiDigit, cs.dropWhile isAsciiDigit)

def parseFrac : List Char → Option (List Char × List Char)
  | '.' :: rest =>
    let (fs, r2) := parseDigits rest
    if fs.isEmpty then none else some ('.' :: fs, r2)
  | cs => some ([], cs)

def parseExpPart : List Char → Option (List Char × List Char)
  | c :: rest =>
    if c == 'e' || c == 'E' then
      let (sgn, r1) := match rest with
        | '+' :: r => (['+'], r)
        | '-' :: r => (['-'], r)
        | r => (([] : List Char), r)
      let (ds, r2) := parseDigits r1
      if ds.isEmpty then none else some (c :: (sgn ++ ds), r2)
    else some ([], c :: rest)
  | [] => some ([], [])

/-- A JSON number lexeme: -?int frac? exp?, no leading zeros. -/
def parseNumber (cs : List Char) : Option (String × List Char) :=
  let (sgn, cs1) := match cs with
    | '-' :: rest => ((['-'] : List Char), rest)
    | _ => ([], cs)
  let (ds, cs2) := parseDigits cs1
  if ds.isEmpty then none
  else if 1 < ds.length ∧ ds.headD '0' == '0' then none
  else
    match parseFrac cs2 with
    | none => none
    | some (fs, cs3) =>
      match parseExpPart cs3 with
      | none => none
      | some (es, cs4) => some (⟨sgn ++ ds ++ fs ++ es⟩, cs4)

mutual

/-- Recursive-descent JSON value parser (fuel-indexed; `jsonParse` supplies
enough fuel for any input it is given). -/
def parseValue : Nat → List Char → Option (Json × List Char)
  | 0, _ => none
  | fuel + 1, cs =>
    match cs with
    | 'n' :: 'u' :: 'l' :: 'l' :: rest => some (.null, rest)
    | 't' :: 'r' :: 'u' :: 'e' :: rest => some (.jbool true, rest)
    | 'f' :: 'a' :: 'l' :: 's' :: 'e' :: rest => some (.jbool false, rest)
    | '"' :: rest => (parseStringBody [] rest).map (fun p => (.str p.1, p.2))
    | '[' :: rest =>
      match skipWs rest with
      | ']' :: r2 => some (.arr .nil, r2)
      | r1 => (parseArrayItems fuel r1).map (fun p => (.arr p.1, p.2))
    | '{' :: rest =>
      match skipWs rest with
      | '}' :: r2 => some (.obj .nil, r2)
      | r1 => (parseObjectItems fuel r1).map (fun p => (.obj p.1, p.2))
    | _ => (parseNumber cs).map (fun p => (.num p.1, p.2))

def parseArrayItems : Nat → List Char → Option (JsonList × List Char)
  | 0, _ => none
  | fuel + 1, cs =>
    match parseValue fuel cs with
    | none => none
    | some (v, r) =>
      match skipWs r with
      | ',' :: r2 => (parseArrayItems fuel (skipWs r2)).map (fun p => (.cons v p.1, p.2))
      | ']' :: r2 => some (.cons v .nil, r2)
      | _ => none

def parseObjectItems : Nat → List Char → Option (JsonFields × List Char)
  | 0, _ => none
  | fuel + 1, cs =>
    match cs with
    | '"' :: rest =>
      match parseStringBody [] rest with
      | none => none
      | some (k, r1) =>
        match skipWs r1 with
        | ':' :: r2 =>
          match parseValue fuel (skipWs r2) with
          | none => none
          | some (v, r3) =>
            match skipWs r3 with
            | ',' :: r4 => (parseObjectItems fuel (skipWs r4)).map (fun p => (.cons k v p.1, p.2))
            | '}' :: r4 => some (.cons k v .nil, r4)
            | _ => none
        | _ => none
    | _ => none

end

/-- A whole JSON text: one value with only whitespace around it (what
encoding/json's Unmarshal checkValid accepts). -/
def jsonParse (s : String) : Option Json :=
  match parseValue (2 * s.data.length + 4) (skipWs s.data) with
  | some (v, rest) => if (skipWs rest).isEmpty then some v else none
  | none => none

/-- encoding/json field-name matching: exact bytes or ASCII case folding
(Go prefers an exact match; with a struct whose tags are all lowercase both
reduce to a fold-equal test applied in member order). -/
def foldEqKey (a b : String) : Bool :=
  a.data.map asciiLower == b.data.map asciiLower

/-- One pass over an error body's object members, as Unmarshal decodes them
into `APIError`: "message" and "code" take string values (null leaves the
field; any other type is an UnmarshalTypeError, noted in the flag while
decoding continues); every other member — "raw" included, a RawMessage
accepts any value — is absorbed without error. -/
def scanAPIFields : JsonFields → String × String × Bool → String × String × Bool
  | .nil, st => st
  | .cons k v rest, (m, cd, bad) =>
    let st2 :=
      if foldEqKey k "message" then
        match v with
        | .str s2 => (s2, cd, bad)
        | .null => (m, cd, bad)
        | _ => (m, cd, true)
      else if foldEqKey k "code" then
        match v with
        | .str s2 => (m, s2, bad)
        | .null => (m, cd, bad)
        | _ => (m, cd, true)
      else (m, cd, bad)
    scanAPIFields rest st2

/-- `json.Unmarshal(body, &apiErr)` restricted to the two decoded fields:
`.ok (message, code)` on success, `.error (message, code)` with the partial
assignments on failure (syntax error, non-object top level, or a wrongly
typed message/code member). -/
def unmarshalAPIError (body : String) : Except (String × String) (String × String) :=
  match jsonParse body with
  | none => .error ("", "")
  | some .null => .ok ("", "")
  | some (.obj fs) =>
    match scanAPIFields fs ("", "", false) with
    | (m, cd, true) => .error (m, cd)
    | (m, cd, false) => .ok (m, cd)
  | some _ => .error ("", "")

/-- Go `APIError` (client.go).  `raw` models the Raw json.RawMessage field:
`none` is Go's nil slice. -/
structure APIError where
  statusCode : Nat
  message : String
  code : String
  raw : Option String
deriving DecidableEq, Repr

/-- The error-construction sequence shared verbatim by `Client.do`
(client.go:179-189) and `parseAPIError`: start from the status code; for a
non-empty body try Unmarshal, on failure overwrite Message with the trimmed
body text (Raw stays nil), on success keep the decoded fields and set Raw to
the body bytes. -/
def mkAPIError (status : Nat) (body : String) : APIError :=
  if body = "" then { statusCode := status, message := "", code := "", raw := none }
  else
    match unmarshalAPIError body with
    | .error (_, cd) => { statusCode := status, message := trimSpace body, code := cd, raw := none }
    | .ok (m, cd) => { statusCode := status, message := m, code := cd, raw := some body }

/-- An error a call returns: an API error from a failed response, or a local
error (validation, request construction, response decoding).  Transport
failures are not modelled (the transport below is total). -/
inductive OpError where
  | api (e : APIError)
  | localErr (msg : String)
deriving DecidableEq, Repr

/-- An HTTP response as the SDK observes one: status code and body text. -/
structure HttpResponse where
  status : Nat
  body : String
deriving DecidableEq, Repr

/-- 1 MiB: `io.LimitReader(res.Body, 1<<20)` in `Client.do` and
`parseAPIError`. -/
def readCapJSON : Nat := 1 <<< 20

/-- 4 MiB: `io.LimitReader(res.Body, 4<<20)` in `Client.ExportBindZone`. -/
def readCapExport : Nat := 4 <<< 20

/-- Go `Client.do` after the transport call (client.go:167-201): read the
body capped at 1 MiB; status ≥ 400 becomes an APIError; otherwise decode
JSON into the caller's target when one was supplied and the body is
non-empty.  `wantOut` is `out != nil`; a successful decode is returned as
the parsed value. -/
def doResp (res : HttpResponse) (wantOut : Bool) : Except OpError (Option Json) :=
  let bodyBytes := takeBytesStr readCapJSON res.body
  if 400 ≤ res.status then .error (.api (mkAPIError res.status bodyBytes))
  else if wantOut = false ∨ bodyBytes = "" then .ok none
  else
    match jsonParse bodyBytes with
    | none => .error (.localErr "enzonix: decode response: invalid json")
    | some v => .ok (some v)

/-- Go `parseAPIError` (resources file): read the body capped at 1 MiB and
build the APIError. -/
def parseAPIErrorM (res : HttpResponse) : OpError :=
  .api (mkAPIError res.status (takeBytesStr readCapJSON res.body))

/-- Model of `*http.Client` as configuration (only its identity and timeout
are ever observed by the SDK). -/
structure HTTPClient where
  timeout : Nat
deriving DecidableEq, Repr

/-- Go `Client` (client.go:26-31).  `httpClient = none` models a nil
`*http.Client` pointer. -/
structure Client where
  baseURL : URL
  apiKey : String
  httpClient : Option HTTPClient
  userAgent : String
deriving DecidableEq, Repr

/-- client.go:17. -/
def defaultBaseURL : String := "https://api.ns.enzonix.com"

/-- client.go:18, in nanoseconds (10 * time.Second). -/
def defaultTimeout : Nat := 10000000000

/-- client.go:19. -/
def defaultUserAgent : String := "enzonix-dns-sdk-go/0.1.0"

/-- A Go error value, identified by its message text. -/
abbrev GoError := String

/-- The function type `Option func(*Client) error`; state passing replaces
the pointer receiver's mutation. -/
abbrev OptionFn := Client → Except GoError Client

/-- A `[]Option` element: Go function values may be nil. -/
abbrev ClientOption := Option OptionFn

/-- The option loop of NewClient (client.go:53-60): nil entries skipped,
first error aborts. -/
def applyOpts : Client → List ClientOption → Except GoError Client
  | c, [] => .ok c
  | c, Option.none :: rest => applyOpts c rest
  | c, Option.some f :: rest =>
    match f c with
    | .error e => .error e
    | .ok c2 => applyOpts c2 rest

/-- Go `NewClient` (client.go:34-67). -/
def NewClient (apiKey : String) (opts : List ClientOption) : Except GoError Client :=
  if trimSpace apiKey = "" then .error "enzonix: api key must not be empty"
  else
    match parseURL defaultBaseURL with
    | none => .error "enzonix: parse default base url"
    | some baseURL =>
      let client : Client :=
        { baseURL, apiKey, userAgent := defaultUserAgent,
          httpClient := some { timeout := defaultTimeout } }
      match applyOpts client opts with
      | .error e => .error e
      | .ok c =>
        .ok (if c.httpClient.isNone then { c with httpClient := some { timeout := defaultTimeout } }
             else c)

/-- Go `WithBaseURL` (client.go:70-85).  The parse-failure message stands for
the wrapped error text, whose exact wording no claim depends on. -/
def withBaseURL (rawURL : String) : OptionFn := fun c =>
  if trimSpace rawURL = "" then .error "enzonix: base url must not be empty"
  else
    match parseURL rawURL with
    | none => .error "enzonix: parse base url: missing protocol scheme"
    | some parsed =>
      if parsed.isAbs = false then .error "enzonix: base url must be absolute"
      else .ok { c with baseURL := parsed }

/-- Go `WithHTTPClient` (client.go:88-96). -/
def withHTTPClient (httpClient : Option HTTPClient) : OptionFn := fun c =>
  match httpClient with
  | none => .error "enzonix: http client must not be nil"
  | some h => .ok { c with httpClient := some h }

/-- Go `WithUserAgent` (client.go:99-104). -/
def withUserAgent (ua : String) : OptionFn := fun c =>
  .ok { c with userAgent := trimSpace ua }

/-- Request headers; `hSet` replaces as http.Header.Set does (all keys the
SDK sets are already canonical). -/
abbrev Headers := List (String × String)

/-- http.Header.Set: drop every entry under the key, add the new one. -/
def hSet : Headers → String → String → Headers
  | [], k, v => [(k, v)]
  | a :: rest, k, v => if a.1 = k then hSet rest k v else a :: hSet rest k v

/-- http.Header.Get. -/
def hGet : Headers → String → Option String
  | [], _ => none
  | a :: rest, k => if a.1 = k then some a.2 else hGet rest k

/-- A request body: the JSON-encoded value newRequest writes, or the raw
bytes ImportBindZone substitutes. -/
inductive BodyContent where
  | jsonBody (j : Json)
  | rawText (s : String)
deriving DecidableEq, Repr

/-- An `*http.Request` as the SDK builds one.  `url` holds the resolved URL
value (Go re-parses `u.String()`; for every URL this SDK builds the
round trip is the identity, so the value is stored directly). -/
structure HttpRequest where
  method : String
  url : URL
  headers : Headers
  body : Option BodyContent
deriving DecidableEq, Repr

/-- A context handle: `nilCtx` models a nil context.Context. -/
inductive GoContext where
  | nilCtx
  | validCtx
deriving DecidableEq, Repr

/-- Go `Client.newRequest` (client.go:126-165).  JSON encoding of the body
cannot fail in the model because bodies arrive as already-formed JSON
values; Go's http.NewRequestWithContext method validation is not modelled
(the SDK only passes literal standard methods). -/
def Client.newRequest (c : Client) (ctx : GoContext) (method path : String)
    (query : Option Values) (body : Option Json) : Except OpError HttpRequest :=
  match ctx with
  | .nilCtx => .error (.localErr "enzonix: context must not be nil")
  | .validCtx =>
    match parseURL path with
    | none => .error (.localErr "enzonix: parse path: invalid url")
    | some rel =>
      let u0 := resolveReference c.baseURL rel
      let u := match query with
        | none => u0
        | some q => { u0 with rawQuery := encodeValues q }
      let headers0 := hSet (hSet [] "Authorization" ("Bearer " ++ c.apiKey)) "Accept" "application/json"
      let headers1 := match body with
        | some _ => hSet headers0 "Content-Type" "application/json"
        | none => headers0
      let headers2 := if c.userAgent ≠ "" then hSet headers1 "User-Agent" c.userAgent else headers1
      .ok { method, url := u, headers := headers2, body := body.map BodyContent.jsonBody }

/-- The HTTP round trip `c.httpClient.Do`, abstracted: total, so transport
failures (taxonomy case b) are out of the model's scope. -/
abbrev Transport := HttpRequest → HttpResponse

/-- The resources file's `clientAPIPrefix` constant. -/
def clientAPIRoot : String := "/api/client"

/-- Go `requireID`: `some msg` is the non-nil error. -/
def requireID (value label : String) : Option GoError :=
  if trimSpace value = "" then some ("enzonix: " ++ label ++ " must not be empty") else none

/-- Helpers to build the JSON bodies the SDK marshals. -/
def toJsonList : List Json → JsonList
  | [] => .nil
  | j :: rest => .cons j (toJsonList rest)

def jfOfList : List (String × Json) → JsonFields
  | [] => .nil
  | (k, v) :: rest => .cons k v (jfOfList rest)

/-- Request builders: the validation-free tail of each operation
(path construction and `newRequest`), split out so that properties of the
request each operation sends can be stated. -/
def listDomainsReq (c : Client) (ctx : GoContext) : Except OpError HttpRequest :=
  c.newRequest ctx "GET" (clientAPIRoot ++ "/domains") none none

/-- Go `Client.ListDomains`. -/
def Client.listDomains (c : Client) (t : Transport) (ctx : GoContext) :
    Except OpError (Option Json) × Client :=
  (match listDomainsReq c ctx with
   | .error e => .error e
   | .ok req => doResp (t req) true, c)

def createDomainReq (c : Client) (ctx : GoContext) (name : String) : Except OpError HttpRequest :=
  c.newRequest ctx "POST" (clientAPIRoot ++ "/domains")
    none (some (.obj (jfOfList [("name", .str name)])))

/-- Go `Client.CreateDomain`: trims the name, rejects blank, POSTs
`{name}`. -/
def Client.createDomain (c : Client) (t : Transport) (ctx : GoContext) (name : String) :
    Except OpError (Option Json) × Client :=
  (let name2 := trimSpace name
   if name2 = "" then .error (.localErr "enzonix: domain name must not be empty")
   else
     match createDomainReq c ctx name2 with
     | .error e => .error e
     | .ok req => doResp (t req) true, c)

def deleteDomainReq (c : Client) (ctx : GoContext) (domainID : String) : Except OpError HttpRequest :=
  c.newRequest ctx "DELETE" (clientAPIRoot ++ "/domains/" ++ pathEscape domainID) none none

/-- Go `Client.DeleteDomain`. -/
def Client.deleteDomain (c : Client) (t : Transport) (ctx : GoContext) (domainID : String) :
    Except OpError Unit × Client :=
  (match requireID domainID "domain id" with
   | some e => .error (.localErr e)
   | none =>
     match deleteDomainReq c ctx domainID with
     | .error e => .error e
     | .ok req => (doResp (t req) false).map (fun _ => ()), c)

def checkNameserverReq (c : Client) (ctx : GoContext) (domainID : String) :
    Except OpError HttpRequest :=
  c.newRequest ctx "POST" (clientAPIRoot ++ "/domains/" ++ pathEscape domainID ++ "/check-nameserver")
    none none

/-- Go `Client.CheckNameserver`. -/
def Client.checkNameserver (c : Client) (t : Transport) (ctx : GoContext) (domainID : String) :
    Except OpError (Option Json) × Client :=
  (match requireID domainID "domain id" with
   | some e => .error (.localErr e)
   | none =>
     match checkNameserverReq c ctx domainID with
     | .error e => .error e
     | .ok req => doResp (t req) true, c)

def listDomainRecordsReq (c : Client) (ctx : GoContext) (domainID : String) :
    Except OpError HttpRequest :=
  c.newRequest ctx "GET" (clientAPIRoot ++ "/domains/" ++ pathEscape domainID ++ "/records")
    none none

/-- Go `Client.ListDomainRecords`. -/
def Client.listDomainRecords (c : Client) (t : Transport) (ctx : GoContext) (domainID : String) :
    Except OpError (Option Json) × Client :=
  (match requireID domainID "domain id" with
   | some e => .error (.localErr e)
   | none =>
     match listDomainRecordsReq c ctx domainID with
     | .error e => .error e
     | .ok req => doResp (t req) true, c)

/-- Go `CreateRecordRequest` (domain-scoped API).  `rtype` is the Go field
`Type`; optional fields are pointers, `none` = nil. -/
structure CreateRecordRequest where
  domainID : String
  name : String
  rtype : String
  value : String
  ttl : Option Int := none
  priority : Option Int := none
  countryCodes : List String := []
deriving DecidableEq, Repr

/-- encoding/json marshalling of CreateRecordRequest: required strings
always, pointer fields only when non-nil, the slice only when non-empty
(omitempty). -/
def encodeCreateRecord (p : CreateRecordRequest) : Json :=
  .obj (jfOfList
    ([("domain_id", Json.str p.domainID), ("name", Json.str p.name),
      ("type", Json.str p.rtype), ("value", Json.str p.value)] ++
     (match p.ttl with | some n => [("ttl", Json.num (toString n))] | none => []) ++
     (match p.priority with | some n => [("priority", Json.num (toString n))] | none => []) ++
     (if p.countryCodes.isEmpty then []
      else [("country_codes", Json.arr (toJsonList (p.countryCodes.map Json.str)))])))

def createRecordReq (c : Client) (ctx : GoContext) (p : CreateRecordRequest) :
    Except OpError HttpRequest :=
  c.newRequest ctx "POST" (clientAPIRoot ++ "/records") none (some (encodeCreateRecord p))

/-- Go `Client.CreateRecord` (domain-scoped API). -/
def Client.createRecord (c : Client) (t : Transport) (ctx : GoContext) (p : CreateRecordRequest) :
    Except OpError (Option Json) × Client :=
  (match requireID p.domainID "domain id" with
   | some e => .error (.localErr e)
   | none =>
     if trimSpace p.name = "" then .error (.localErr "enzonix: record name must not be empty")
     else if trimSpace p.rtype = "" then .error (.localErr "enzonix: record type must not be empty")
     else if trimSpace p.value = "" then .error (.localErr "enzonix: record value must not be empty")
     else
       match createRecordReq c ctx p with
       | .error e => .error e
       | .ok req => doResp (t req) true, c)

/-- Go `UpdateRecordRequest` (domain-scoped API): all fields optional. -/
structure UpdateRecordRequest where
  name : Option String := none
  rtype : Option String := none
  value : Option String := none
  ttl : Option Int := none
  priority : Option Int := none
  countryCodes : List String := []
deriving DecidableEq, Repr

def encodeUpdateRecord (p : UpdateRecordRequest) : Json :=
  .obj (jfOfList
    ((match p.name with | some s => [("name", Json.str s)] | none => []) ++
     (match p.rtype with | some s => [("type", Json.str s)] | none => []) ++
     (match p.value with | some s => [("value", Json.str s)] | none => []) ++
     (match p.ttl with | some n => [("ttl", Json.num (toString n))] | none => []) ++
     (match p.priority with | some n => [("priority", Json.num (toString n))] | none => []) ++
     (if p.countryCodes.isEmpty then []
      else [("country_codes", Json.arr (toJsonList (p.countryCodes.map Json.str)))])))

def updateRecordReq (c : Client) (ctx : GoContext) (recordID : String) (p : UpdateRecordRequest) :
    Except OpError HttpRequest :=
  c.newRequest ctx "PUT" (clientAPIRoot ++ "/records/" ++ pathEscape recordID)
    none (some (encodeUpdateRecord p))

/-- Go `Client.UpdateRecord` (domain-scoped API). -/
def Client.updateRecord (c : Client) (t : Transport) (ctx : GoContext) (recordID : String)
    (p : UpdateRecordRequest) : Except OpError (Option Json) × Client :=
  (match requireID recordID "record id" with
   | some e => .error (.localErr e)
   | none =>
     match updateRecordReq c ctx recordID p with
     | .error e => .error e
     | .ok req => doResp (t req) true, c)

def deleteRecordReq (c : Client) (ctx : GoContext) (recordID : String) : Except OpError HttpRequest :=
  c.newRequest ctx "DELETE" (clientAPIRoot ++ "/records/" ++ pathEscape recordID) none none

/-- Go `Client.DeleteRecord` (domain-scoped API). -/
def Client.deleteRecord (c : Client) (t : Transport) (ctx : GoContext) (recordID : String) :
    Except OpError Unit × Client :=
  (match requireID recordID "record id" with
   | some e => .error (.localErr e)
   | none =>
     match deleteRecordReq c ctx recordID with
     | .error e => .error e
     | .ok req => (doResp (t req) false).map (fun _ => ()), c)

def exportBindZoneReq (c : Client) (ctx : GoContext) (domainID : String) :
    Except OpError HttpRequest :=
  match c.newRequest ctx "GET"
      (clientAPIRoot ++ "/domains/" ++ pathEscape domainID ++ "/export/bind") none none with
  | .error e => .error e
  | .ok req => .ok { req with headers := hSet req.headers "Accept" "text/plain" }

/-- Go `Client.ExportBindZone`: the one operation that bypasses `do`; a
success status returns the body bytes capped at 4 MiB, untouched. -/
def Client.exportBindZone (c : Client) (t : Transport) (ctx : GoContext) (domainID : String) :
    Except OpError String × Client :=
  (match requireID domainID "domain id" with
   | some e => .error (.localErr e)
   | none =>
     match exportBindZoneReq c ctx domainID with
     | .error e => .error e
     | .ok req =>
       let res := t req
       if 400 ≤ res.status then .error (parseAPIErrorM res)
       else .ok (takeBytesStr readCapExport res.body), c)

def importBindZoneReq (c : Client) (ctx : GoContext) (zoneData contentType : String) :
    Except OpError HttpRequest :=
  match c.newRequest ctx "POST" (clientAPIRoot ++ "/import/bind") none none with
  | .error e => .error e
  | .ok req =>
    .ok { req with body := some (.rawText zoneData),
                   headers := hSet req.headers "Content-Type" contentType }

/-- Go `Client.ImportBindZone`. -/
def Client.importBindZone (c : Client) (t : Transport) (ctx : GoContext)
    (zoneData contentType : String) : Except OpError (Option Json) × Client :=
  (if zoneData = "" then .error (.localErr "enzonix: zone data must not be empty")
   else
     let ct := if contentType = "" then "text/plain" else contentType
     match importBindZoneReq c ctx zoneData ct with
     | .error e => .error e
     | .ok req => doResp (t req) true, c)

def rotateAPIKeyReq (c : Client) (ctx : GoContext) : Except OpError HttpRequest :=
  c.newRequest ctx "POST" (clientAPIRoot ++ "/rotate-api-key") none none

/-- Go `Client.RotateAPIKey`. -/
def Client.rotateAPIKey (c : Client) (t : Transport) (ctx : GoContext) :
    Except OpError (Option Json) × Client :=
  (match rotateAPIKeyReq c ctx with
   | .error e => .error e
   | .ok req => doResp (t req) true, c)

/-- Go `strings.TrimSuffix(zone, ".")`: drop one trailing dot if present. -/
def trimSuffixDot (s : String) : String :=
  match s.data.reverse with
  | '.' :: rest => ⟨rest.reverse⟩
  | _ => s

/-- Go `trimZone` (zone-scoped records file): trim whitespace, then
TrimSuffix one ".". -/
def trimZone (zone : String) : String := trimSuffixDot (trimSpace zone)

/-- Go `zoneRecordsPath`. -/
def zoneRecordsPath (zone : String) : String :=
  "/zones/" ++ pathEscape (trimZone zone) ++ "/records"

/-- Go `zoneRecordPath`. -/
def zoneRecordPath (zone recordID : String) : String :=
  zoneRecordsPath zone ++ "/" ++ pathEscape recordID

/-- Go `(*Client).requireZone` (ignores the receiver). -/
def requireZone (zone : String) : Option GoError :=
  if trimSpace zone = "" then some "enzonix: zone must not be empty" else none

namespace ZoneAPI

/-- Go `ListRecordsOptions` (zone-scoped records file). -/
structure ListRecordsOptions where
  name : String := ""
  rtype : String := ""
  page : Int := 0
  perPage : Int := 0
deriving DecidableEq, Repr

/-- The query the ListRecords loop builds from its options (`url.Values{}`
then conditional Set calls); a nil options pointer is `none`. -/
def listQuery (opts : Option ListRecordsOptions) : Values :=
  match opts with
  | none => []
  | some o =>
    let q : Values := []
    let q := if o.name ≠ "" then valuesSet q "name" o.name else q
    let q := if o.rtype ≠ "" then valuesSet q "type" o.rtype else q
    let q := if 0 < o.page then valuesSet q "page" (toString o.page) else q
    if 0 < o.perPage then valuesSet q "per_page" (toString o.perPage) else q

def listRecordsReq (c : Client) (ctx : GoContext) (zone : String)
    (opts : Option ListRecordsOptions) : Except OpError HttpRequest :=
  c.newRequest ctx "GET" (zoneRecordsPath zone) (some (listQuery opts)) none

/-- Go `Client.ListRecords` (zone-scoped API). -/
def listRecords (c : Client) (t : Transport) (ctx : GoContext) (zone : String)
    (opts : Option ListRecordsOptions) : Except OpError (Option Json) × Client :=
  (match requireZone zone with
   | some e => .error (.localErr e)
   | none =>
     match listRecordsReq c ctx zone opts with
     | .error e => .error e
     | .ok req => doResp (t req) true, c)

/-- Go `CreateRecordRequest` (zone-scoped API): value fields with
omitempty ints. -/
structure CreateRecordRequest where
  name : String
  rtype : String
  content : String
  ttl : Int := 0
  priority : Nat := 0
  weight : Nat := 0
deriving DecidableEq, Repr

def encodeCreateRecord (p : CreateRecordRequest) : Json :=
  .obj (jfOfList
    ([("name", Json.str p.name), ("type", Json.str p.rtype), ("content", Json.str p.content)] ++
     (if p.ttl = 0 then [] else [("ttl", Json.num (toString p.ttl))]) ++
     (if p.priority = 0 then [] else [("priority", Json.num (toString p.priority))]) ++
     (if p.weight = 0 then [] else [("weight", Json.num (toString p.weight))])))

def createRecordReq (c : Client) (ctx : GoContext) (zone : String) (p : CreateRecordRequest) :
    Except OpError HttpRequest :=
  c.newRequest ctx "POST" (zoneRecordsPath zone) none (some (encodeCreateRecord p))

/-- Go `Client.CreateRecord` (zone-scoped API). -/
def createRecord (c : Client) (t : Transport) (ctx : GoContext) (zone : String)
    (p : CreateRecordRequest) : Except OpError (Option Json) × Client :=
  (match requireZone zone with
   | some e => .error (.localErr e)
   | none =>
     if trimSpace p.name = "" then .error (.localErr "enzonix: record name must not be empty")
     else if trimSpace p.rtype = "" then .error (.localErr "enzonix: record type must not be empty")
     else if trimSpace p.content = "" then
       .error (.localErr "enzonix: record content must not be empty")
     else
       match createRecordReq c ctx zone p with
       | .error e => .error e
       | .ok req => doResp (t req) true, c)

/-- Go `UpdateRecordRequest` (zone-scoped API). -/
structure UpdateRecordRequest where
  name : Option String := none
  rtype : Option String := none
  content : Option String := none
  ttl : Option Int := none
  priority : Option Nat := none
  weight : Option Nat := none
deriving DecidableEq, Repr

def encodeUpdateRecord (p : UpdateRecordRequest) : Json :=
  .obj (jfOfList
    ((match p.name with | some s => [("name", Json.str s)] | none => []) ++
     (match p.rtype with | some s => [("type", Json.str s)] | none => []) ++
     (match p.content with | some s => [("content", Json.str s)] | none => []) ++
     (match p.ttl with | some n => [("ttl", Json.num (toString n))] | none => []) ++
     (match p.priority with | some n => [("priority", Json.num (toString n))] | none => []) ++
     (match p.weight with | some n => [("weight", Json.num (toString n))] | none => [])))

def updateRecordReq (c : Client) (ctx : GoContext) (zone recordID : String)
    (p : UpdateRecordRequest) : Except OpError HttpRequest :=
  c.newRequest ctx "PATCH" (zoneRecordPath zone recordID) none (some (encodeUpdateRecord p))

/-- Go `Client.UpdateRecord` (zone-scoped API). -/
def updateRecord (c : Client) (t : Transport) (ctx : GoContext) (zone recordID : String)
    (p : UpdateRecordRequest) : Except OpError (Option Json) × Client :=
  (match requireZone zone with
   | some e => .error (.localErr e)
   | none =>
     if trimSpace recordID = "" then .error (.localErr "enzonix: record id must not be empty")
     else
       match updateRecordReq c ctx zone recordID p with
       | .error e => .error e
       | .ok req => doResp (t req) true, c)

def deleteRecordReq (c : Client) (ctx : GoContext) (zone recordID : String) :
    Except OpError HttpRequest :=
  c.newRequest ctx "DELETE" (zoneRecordPath zone recordID) none none

/-- Go `Client.DeleteRecord` (zone-scoped API). -/
def deleteRecord (c : Client) (t : Transport) (ctx : GoContext) (zone recordID : String) :
    Except OpError Unit × Client :=
  (match requireZone zone with
   | some e => .error (.localErr e)
   | none =>
     if trimSpace recordID = "" then .error (.localErr "enzonix: record id must not be empty")
     else
       match deleteRecordReq c ctx zone recordID with
       | .error e => .error e
       | .ok req => (doResp (t req) false).map (fun _ => ()), c)

end ZoneAPI

/-- Go `strings.HasSuffix(s, ".")` as the amended C7 states it. -/
def endsInDot (s : String) : Bool :=
  match s.data.reverse with
  | '.' :: _ => true
  | _ => false

/-- Extract the value of a successful call (used to name concrete requests
and clients in witnesses). -/
def okOr {ε α : Type} (d : α) : Except ε α → α
  | .ok a => a
  | .error _ => d

def fallbackClient : Client :=
  { baseURL := {}, apiKey := "", httpClient := none, userAgent := "" }

def fallbackReq : HttpRequest := { method := "", url := {}, headers := [], body := none }

/-- A default-configured client, as `NewClient("key")` builds one. -/
def sampleClient : Client := okOr fallbackClient (NewClient "key" [])

/-- A transport whose server always answers 200 with an empty body. -/
def sampleTransport : Transport := fun _ => { status := 200, body := "" }

/-- The spec's structured error body. -/
def sampleErrBody : String := "\x7b\"message\":\"oops\",\"code\":\"bad_request\"\x7d"

section HeaderLemmas

theorem hGet_hSet_self (hs : Headers) (k v : String) : hGet (hSet hs k v) k = some v := by
  induction hs with
  | nil => simp [hGet, hSet]
  | cons a rest ih =>
    by_cases hak : a.1 = k
    · simpa [hGet, hSet, hak] using ih
    · simpa [hGet, hSet, hak] using ih

theorem hGet_hSet_ne (hs : Headers) (k v k2 : String) (h : k2 ≠ k) :
    hGet (hSet hs k v) k2 = hGet hs k2 := by
  have hkk : ¬ k = k2 := fun hh => h hh.symm
  induction hs with
  | nil => simp [hGet, hSet, hkk]
  | cons a rest ih =>
    by_cases hak : a.1 = k
    · have ha2 : ¬ a.1 = k2 := by rw [hak]; exact hkk
      simp [hGet, hSet, hak, ha2, h, hkk, ih]
    · by_cases ha2 : a.1 = k2
      · simp [hGet, hSet, hak, ha2, h, hkk]
      · simp [hGet, hSet, hak, ha2, ih]

end HeaderLemmas

section TrimLemmas

theorem trimLeftL_append_dot (l : List Char) (h : trimLeftL l = l) :
    trimLeftL (l ++ ['.']) = l ++ ['.'] := by
  cases l with
  | nil => simp [trimLeftL, goIsSpace]
  | cons a rest =>
    have ha : goIsSpace a = false := by
      cases hh : goIsSpace a with
      | false => rfl
      | true =>
        exfalso
        have h2 : trimLeftL (a :: rest) = List.dropWhile goIsSpace rest := by
          simp [trimLeftL, List.dropWhile, hh]
        rw [h] at h2
        have hlen := congrArg List.length h2
        have hle := (List.dropWhile_suffix (l := rest) goIsSpace).length_le
        simp at hlen
        omega
    simp [trimLeftL, List.dropWhile, ha]

theorem trimRightL_append_dot (l : List Char) :
    trimRightL (l ++ ['.']) = l ++ ['.'] := by
  have hdot : goIsSpace '.' = false := by decide
  simp [trimRightL, List.dropWhile, hdot]

theorem trimLeftL_of_trimSpace_eq (s : String) (h : trimSpace s = s) :
    trimLeftL s.data = s.data := by
  have hdata : trimRightL (trimLeftL s.data) = s.data := congrArg String.data h
  have h1 : trimLeftL s.data <:+ s.data := List.dropWhile_suffix goIsSpace
  have h2 : (trimLeftL s.data).length ≤ s.data.length := h1.length_le
  have h3 : (trimRightL (trimLeftL s.data)).length ≤ (trimLeftL s.data).length := by
    have := (List.dropWhile_suffix (l := (trimLeftL s.data).reverse) goIsSpace).length_le
    simpa [trimRightL] using this
  have hlen : (trimLeftL s.data).length = s.data.length := by
    have := congrArg List.length hdata
    omega
  exact h1.eq_of_length hlen

theorem trimSpace_append_dot (s : String) (h : trimSpace s = s) :
    trimSpace (s ++ ".") = s ++ "." := by
  have hdata : (s ++ ".").data = s.data ++ ['.'] := rfl
  have hl := trimLeftL_append_dot s.data (trimLeftL_of_trimSpace_eq s h)
  show (⟨trimRightL (trimLeftL (s ++ ".").data)⟩ : String) = s ++ "."
  rw [hdata, hl, trimRightL_append_dot]
  exact String.ext hdata.symm

theorem trimZone_append_dot (s : String) (h : trimSpace s = s) :
    trimZone (s ++ ".") = s := by
  unfold trimZone
  rw [trimSpace_append_dot s h]
  show trimSuffixDot ⟨s.data ++ ['.']⟩ = s
  unfold trimSuffixDot
  simp only [List.reverse_append, List.reverse_cons, List.reverse_nil, List.nil_append,
    List.singleton_append]
  simp

theorem trimZone_self (s : String) (h : trimSpace s = s) (hd : endsInDot s = false) :
    trimZone s = s := by
  unfold trimZone
  rw [h]
  unfold trimSuffixDot
  split
  · exfalso
    unfold endsInDot at hd
    next rest heq =>
      rw [heq] at hd
      simp at hd
  · rfl

end TrimLemmas

section OptionLemmas

theorem applyOpts_filter (opts : List ClientOption) : ∀ c : Client,
    applyOpts c (opts.filter Option.isSome) = applyOpts c opts := by
  induction opts with
  | nil => intro c; rfl
  | cons o rest ih =>
    intro c
    cases o with
    | none => simpa [applyOpts, List.filter_cons] using ih c
    | some f =>
      simp only [List.filter_cons, Option.isSome_some, if_true]
      cases hf : f c with
      | error e => simp [applyOpts, hf]
      | ok c2 => simp [applyOpts, hf, ih c2]

theorem applyOpts_error_iff (opts : List ClientOption) : ∀ (c : Client) (e : GoError),
    applyOpts c opts = .error e ↔
    ∃ pre f post c2, opts = pre ++ Option.some f :: post ∧
      applyOpts c pre = .ok c2 ∧ f c2 = .error e := by
  induction opts with
  | nil =>
    intro c e
    constructor
    · intro h
      cases h
    · rintro ⟨pre, f, post, c2, hsplit, -, -⟩
      cases pre <;> simp at hsplit
  | cons o rest ih =>
    intro c e
    cases o with
    | none =>
      rw [show applyOpts c (Option.none :: rest) = applyOpts c rest from rfl, ih]
      constructor
      · rintro ⟨pre, f, post, c2, hsplit, hpre, hf⟩
        exact ⟨Option.none :: pre, f, post, c2, by rw [hsplit, List.cons_append], hpre, hf⟩
      · rintro ⟨pre, f, post, c2, hsplit, hpre, hf⟩
        cases pre with
        | nil => simp at hsplit
        | cons p pre2 =>
          rw [List.cons_append] at hsplit
          obtain ⟨hp, hrest⟩ := List.cons.inj hsplit
          subst hp
          exact ⟨pre2, f, post, c2, hrest, hpre, hf⟩
    | some g =>
      cases hg : g c with
      | error e0 =>
        have hl : applyOpts c (Option.some g :: rest) = .error e0 := by
          simp [applyOpts, hg]
        rw [hl]
        constructor
        · intro h
          cases h
          exact ⟨[], g, rest, c, rfl, rfl, hg⟩
        · rintro ⟨pre, f, post, c2, hsplit, hpre, hf⟩
          cases pre with
          | nil =>
            rw [List.nil_append] at hsplit
            obtain ⟨hgf, hrp⟩ := List.cons.inj hsplit
            cases hpre
            rw [← Option.some.inj hgf] at hf
            rw [hg] at hf
            rw [hf]
          | cons p pre2 =>
            rw [List.cons_append] at hsplit
            obtain ⟨hp, hrest⟩ := List.cons.inj hsplit
            subst hp
            rw [show applyOpts c (Option.some g :: pre2) =
                  (match g c with
                   | .error err => Except.error err
                   | .ok cc => applyOpts cc pre2) from rfl, hg] at hpre
            cases hpre
      | ok cnext =>
        have hl : applyOpts c (Option.some g :: rest) = applyOpts cnext rest := by
          simp [applyOpts, hg]
        rw [hl, ih]
        constructor
        · rintro ⟨pre, f, post, c2, hsplit, hpre, hf⟩
          refine ⟨Option.some g :: pre, f, post, c2, by rw [hsplit, List.cons_append], ?_, hf⟩
          rw [show applyOpts c (Option.some g :: pre) =
                (match g c with
                 | .error err => Except.error err
                 | .ok cc => applyOpts cc pre) from rfl, hg]
          exact hpre
        · rintro ⟨pre, f, post, c2, hsplit, hpre, hf⟩
          cases pre with
          | nil =>
            rw [List.nil_append] at hsplit
            obtain ⟨hgf, hrp⟩ := List.cons.inj hsplit
            cases hpre
            rw [← Option.some.inj hgf] at hf
            rw [hg] at hf
            cases hf
          | cons p pre2 =>
            rw [List.cons_append] at hsplit
            obtain ⟨hp, hrest⟩ := List.cons.inj hsplit
            subst hp
            rw [show applyOpts c (Option.some g :: pre2) =
                  (match g c with
                   | .error err => Except.error err
                   | .ok cc => applyOpts cc pre2) from rfl, hg] at hpre
            exact ⟨pre2, f, post, c2, hrest, hpre, hf⟩

end OptionLemmas

section APIErrorLemmas

theorem mkAPIError_spec (status : Nat) (body : String) :
    (mkAPIError status body).statusCode = status ∧
    (∀ m cd, unmarshalAPIError body = .ok (m, cd) →
      (mkAPIError status body).message = m ∧ (mkAPIError status body).code = cd ∧
      (mkAPIError status body).raw = some body) ∧
    (∀ m cd, unmarshalAPIError body = .error (m, cd) →
      (mkAPIError status body).message = trimSpace body ∧ (mkAPIError status body).raw = none) := by
  by_cases hb : body = ""
  · subst hb
    refine ⟨rfl, ?_, ?_⟩
    · intro m cd h
      rw [show unmarshalAPIError "" = Except.error ("", "") from rfl] at h
      cases h
    · intro m cd h
      exact ⟨rfl, rfl⟩
  · unfold mkAPIError
    rw [if_neg hb]
    cases hu : unmarshalAPIError body with
    | error p =>
      obtain ⟨m0, cd0⟩ := p
      refine ⟨rfl, ?_, ?_⟩
      · intro m cd h
        cases h
      · intro m cd h
        exact ⟨rfl, rfl⟩
    | ok p =>
      obtain ⟨m0, cd0⟩ := p
      refine ⟨rfl, ?_, ?_⟩
      · intro m cd h
        cases h
        exact ⟨rfl, rfl, rfl⟩
      · intro m cd h
        cases h

end APIErrorLemmas

/-- The default base URL as `url.Parse` reads it (used by witnesses). -/
def defaultBaseParsed : URL := (parseURL defaultBaseURL).getD {}

section RequestLemmas

theorem newRequest_headers (c : Client) (ctx : GoContext) (m path : String)
    (q : Option Values) (b : Option Json) (req : HttpRequest)
    (hreq : c.newRequest ctx m path q b = .ok req) :
    hGet req.headers "Authorization" = some ("Bearer " ++ c.apiKey) ∧
    (hGet req.headers "Content-Type" = some "application/json" ↔ b.isSome = true) ∧
    (c.userAgent ≠ "" → hGet req.headers "User-Agent" = some c.userAgent) ∧
    (c.userAgent = "" → hGet req.headers "User-Agent" = none) := by
  cases ctx with
  | nilCtx => simp [Client.newRequest] at hreq
  | validCtx =>
    cases hrel : parseURL path with
    | none => simp [Client.newRequest, hrel] at hreq
    | some rel =>
      simp only [Client.newRequest, hrel, Except.ok.injEq] at hreq
      subst hreq
      cases b with
      | none => by_cases hua : c.userAgent = "" <;> simp [hSet, hGet, hua]
      | some j => by_cases hua : c.userAgent = "" <;> simp [hSet, hGet, hua]

end RequestLemmas

section CapLemmas

theorem byteLen_takeBytesL_le (l : List Char) : ∀ cap : Nat, byteLen (takeBytesL cap l) ≤ cap := by
  induction l with
  | nil =>
    intro cap
    simp [takeBytesL, byteLen]
  | cons c cs ih =>
    intro cap
    simp only [takeBytesL]
    by_cases h : c.utf8Size ≤ cap
    · rw [if_pos h]
      have h2 := ih (cap - c.utf8Size)
      simp only [byteLen, List.map_cons, List.sum_cons] at *
      omega
    · rw [if_neg h]
      simp [byteLen]

theorem takeBytesL_of_byteLen_le (l : List Char) :
    ∀ cap : Nat, byteLen l ≤ cap → takeBytesL cap l = l := by
  induction l with
  | nil => intro cap _; rfl
  | cons c cs ih =>
    intro cap h
    simp only [byteLen, List.map_cons, List.sum_cons] at h
    have h1 : c.utf8Size ≤ cap := by omega
    simp only [takeBytesL, if_pos h1]
    rw [ih (cap - c.utf8Size) (by simp only [byteLen]; omega)]

theorem takeBytesStr_idem (cap : Nat) (s : String) :
    takeBytesStr cap (takeBytesStr cap s) = takeBytesStr cap s :=
  congrArg String.mk (takeBytesL_of_byteLen_le _ cap (byteLen_takeBytesL_le s.data cap))

end CapLemmas

/-- C3: NewClient fails exactly when the trimmed credential is blank or some
supplied option fails, stops at the first failing option and returns that
option's error with no client value; WithBaseURL rejects an empty,
unparseable or non-absolute URL and WithHTTPClient rejects nil. -/
theorem c3_construction_atomic :
    (∀ (key : String) (opts : List ClientOption), trimSpace key = "" →
      NewClient key opts = .error "enzonix: api key must not be empty") ∧
    (∀ (key : String) (opts : List ClientOption) (b : URL) (e : GoError),
      trimSpace key ≠ "" → parseURL defaultBaseURL = some b →
      applyOpts { baseURL := b, apiKey := key, httpClient := some { timeout := defaultTimeout },
                  userAgent := defaultUserAgent } opts = .error e →
      NewClient key opts = .error e) ∧
    (∀ (key : String) (opts : List ClientOption) (b : URL) (c2 : Client),
      trimSpace key ≠ "" → parseURL defaultBaseURL = some b →
      applyOpts { baseURL := b, apiKey := key, httpClient := some { timeout := defaultTimeout },
                  userAgent := defaultUserAgent } opts = .ok c2 →
      ∃ c3 : Client, NewClient key opts = .ok c3) ∧
    (∀ (c : Client) (opts : List ClientOption) (e : GoError),
      applyOpts c opts = .error e ↔
      ∃ pre f post c2, opts = pre ++ Option.some f :: post ∧
        applyOpts c pre = .ok c2 ∧ f c2 = .error e) ∧
    (∀ (raw : String) (c : Client),
      (trimSpace raw = "" → withBaseURL raw c = .error "enzonix: base url must not be empty") ∧
      (trimSpace raw ≠ "" → parseURL raw = none →
        withBaseURL raw c = .error "enzonix: parse base url: missing protocol scheme") ∧
      (∀ u, trimSpace raw ≠ "" → parseURL raw = some u → u.isAbs = false →
        withBaseURL raw c = .error "enzonix: base url must be absolute") ∧
      (∀ u, trimSpace raw ≠ "" → parseURL raw = some u → u.isAbs = true →
        withBaseURL raw c = .ok { c with baseURL := u })) ∧
    (∀ c : Client, withHTTPClient none c = .error "enzonix: http client must not be nil") ∧
    (∀ (c : Client) (h : HTTPClient), withHTTPClient (some h) c = .ok { c with httpClient := some h }) := by
  refine ⟨?_, ?_, ?_, fun c opts e => applyOpts_error_iff opts c e, ?_, fun c => rfl,
    fun c h => rfl⟩
  · intro key opts h
    simp [NewClient, h]
  · intro key opts b e h hb happ
    simp only [NewClient, if_neg h, hb, happ]
  · intro key opts b c2 h hb happ
    refine ⟨if c2.httpClient.isNone then { c2 with httpClient := some { timeout := defaultTimeout } }
            else c2, ?_⟩
    simp only [NewClient, if_neg h, hb, happ]
  · intro raw c
    refine ⟨?_, ?_, ?_, ?_⟩
    · intro h
      simp [withBaseURL, h]
    · intro h hp
      unfold withBaseURL
      rw [if_neg h, hp]
    · intro u h hp habs
      unfold withBaseURL
      rw [if_neg h, hp]
      simp [habs]
    · intro u h hp habs
      unfold withBaseURL
      rw [if_neg h, hp]
      simp [habs]

/-- C3 witness: a blank credential fails, an unparseable base-URL override
fails construction with that option's error, and a nil transport override is
rejected. -/
theorem c3_construction_atomic_witness :
    NewClient "  " [] = .error "enzonix: api key must not be empty" ∧
    NewClient "key" [some (withBaseURL "://bad")] =
      .error "enzonix: parse base url: missing protocol scheme" ∧
    withHTTPClient none sampleClient = .error "enzonix: http client must not be nil" :=
  ⟨c3_construction_atomic.1 "  " [] (by decide),
   c3_construction_atomic.2.1 "key" [some (withBaseURL "://bad")] defaultBaseParsed
     "enzonix: parse base url: missing protocol scheme" (by decide) rfl rfl,
   c3_construction_atomic.2.2.2.2.2.1 sampleClient⟩

/-- C1: on every response with status ≥ 400 handled by `Client.do` or by
`parseAPIError`, the returned error is an APIError whose status code equals
the response status; when the (capped) body unmarshals as `{message, code}`
JSON the APIError carries those fields, and on unmarshal failure its message
is the whitespace-trimmed raw body text.  The last two conjuncts check the
spec's concrete 400-response examples. -/
theorem c1_error_response_shape :
    (∀ (status : Nat) (body : String) (wantOut : Bool), 400 ≤ status →
      ∃ e : APIError,
        doResp { status, body } wantOut = .error (.api e) ∧
        e.statusCode = status ∧
        (∀ m cd, unmarshalAPIError (takeBytesStr readCapJSON body) = .ok (m, cd) →
          e.message = m ∧ e.code = cd) ∧
        (∀ m cd, unmarshalAPIError (takeBytesStr readCapJSON body) = .error (m, cd) →
          e.message = trimSpace (takeBytesStr readCapJSON body))) ∧
    (∀ res : HttpResponse,
      ∃ e : APIError,
        parseAPIErrorM res = .api e ∧
        e.statusCode = res.status ∧
        (∀ m cd, unmarshalAPIError (takeBytesStr readCapJSON res.body) = .ok (m, cd) →
          e.message = m ∧ e.code = cd) ∧
        (∀ m cd, unmarshalAPIError (takeBytesStr readCapJSON res.body) = .error (m, cd) →
          e.message = trimSpace (takeBytesStr readCapJSON res.body))) ∧
    mkAPIError 400 sampleErrBody =
      { statusCode := 400, message := "oops", code := "bad_request", raw := some sampleErrBody } ∧
    mkAPIError 400 "upstream exploded\n" =
      { statusCode := 400, message := "upstream exploded", code := "", raw := none } := by
  refine ⟨?_, ?_, by decide, by decide⟩
  · intro status body wantOut h
    refine ⟨mkAPIError status (takeBytesStr readCapJSON body), ?_, ?_, ?_, ?_⟩
    · simp only [doResp]
      rw [if_pos h]
    · exact (mkAPIError_spec status (takeBytesStr readCapJSON body)).1
    · intro m cd hu
      obtain ⟨h1, h2, _⟩ := (mkAPIError_spec status (takeBytesStr readCapJSON body)).2.1 m cd hu
      exact ⟨h1, h2⟩
    · intro m cd hu
      exact ((mkAPIError_spec status (takeBytesStr readCapJSON body)).2.2 m cd hu).1
  · intro res
    refine ⟨mkAPIError res.status (takeBytesStr readCapJSON res.body), rfl, ?_, ?_, ?_⟩
    · exact (mkAPIError_spec res.status (takeBytesStr readCapJSON res.body)).1
    · intro m cd hu
      obtain ⟨h1, h2, _⟩ :=
        (mkAPIError_spec res.status (takeBytesStr readCapJSON res.body)).2.1 m cd hu
      exact ⟨h1, h2⟩
    · intro m cd hu
      exact ((mkAPIError_spec res.status (takeBytesStr readCapJSON res.body)).2.2 m cd hu).1

/-- C1 witness: the theorem applied to a 400 response carrying the spec's
structured error body. -/
theorem c1_error_response_shape_witness :
    400 ≤ 400 ∧
    ∃ e : APIError,
      doResp { status := 400, body := sampleErrBody } false = .error (.api e) ∧
      e.statusCode = 400 ∧
      (∀ m cd, unmarshalAPIError (takeBytesStr readCapJSON sampleErrBody) = .ok (m, cd) →
        e.message = m ∧ e.code = cd) ∧
      (∀ m cd, unmarshalAPIError (takeBytesStr readCapJSON sampleErrBody) = .error (m, cd) →
        e.message = trimSpace (takeBytesStr readCapJSON sampleErrBody)) :=
  ⟨by decide, c1_error_response_shape.1 400 sampleErrBody false (by decide)⟩

/-- C2 counterexample: a 400 response with the non-empty, non-JSON body
"boom" yields an APIError whose Raw field is nil — the raw body bytes are
NOT preserved in Raw on the JSON-parse-failure path (only Message keeps the
trimmed text). -/
theorem c2_raw_counterexample :
    doResp { status := 400, body := "boom" } false =
      .error (.api { statusCode := 400, message := "boom", code := "", raw := none }) ∧
    ("boom" : String) ≠ "" :=
  ⟨rfl, by decide⟩

/-- C2 (amended): the APIError preserves the raw body bytes in Raw exactly
when the body unmarshalled as the structured JSON shape: on unmarshal
success Raw holds the (capped) body bytes, and on every unmarshal failure
Raw is left empty (nil) with the body preserved only as the
whitespace-trimmed Message — as for the concrete non-JSON body "boom". -/
theorem c2_raw_kept_only_on_parsed_json :
    (∀ (status : Nat) (body : String) (wantOut : Bool) (m cd : String), 400 ≤ status →
      unmarshalAPIError (takeBytesStr readCapJSON body) = .ok (m, cd) →
      ∃ e : APIError,
        doResp { status, body } wantOut = .error (.api e) ∧
        e.raw = some (takeBytesStr readCapJSON body)) ∧
    (∀ (status : Nat) (body : String) (wantOut : Bool) (m cd : String), 400 ≤ status →
      unmarshalAPIError (takeBytesStr readCapJSON body) = .error (m, cd) →
      ∃ e : APIError,
        doResp { status, body } wantOut = .error (.api e) ∧
        e.raw = none ∧ e.message = trimSpace (takeBytesStr readCapJSON body)) ∧
    doResp { status := 400, body := "boom" } false =
      .error (.api { statusCode := 400, message := "boom", code := "", raw := none }) := by
  refine ⟨?_, ?_, rfl⟩
  · intro status body wantOut m cd h hu
    refine ⟨mkAPIError status (takeBytesStr readCapJSON body), ?_, ?_⟩
    · simp only [doResp]
      rw [if_pos h]
    · exact ((mkAPIError_spec status (takeBytesStr readCapJSON body)).2.1 m cd hu).2.2
  · intro status body wantOut m cd h hu
    refine ⟨mkAPIError status (takeBytesStr readCapJSON body), ?_, ?_, ?_⟩
    · simp only [doResp]
      rw [if_pos h]
    · exact ((mkAPIError_spec status (takeBytesStr readCapJSON body)).2.2 m cd hu).2
    · exact ((mkAPIError_spec status (takeBytesStr readCapJSON body)).2.2 m cd hu).1

/-- C2 witness: the amended statement applied on both sides — a 400 response
with the structured body keeps the raw bytes, and one with the non-JSON body
"boom" keeps only the trimmed text, Raw nil. -/
theorem c2_raw_kept_only_on_parsed_json_witness :
    (∃ e : APIError,
      doResp { status := 400, body := sampleErrBody } false = .error (.api e) ∧
      e.raw = some (takeBytesStr readCapJSON sampleErrBody)) ∧
    (∃ e : APIError,
      doResp { status := 400, body := "boom" } false = .error (.api e) ∧
      e.raw = none ∧ e.message = trimSpace (takeBytesStr readCapJSON "boom")) :=
  ⟨c2_raw_kept_only_on_parsed_json.1 400 sampleErrBody false "oops" "bad_request"
     (by decide) rfl,
   c2_raw_kept_only_on_parsed_json.2.1 400 "boom" false "" "" (by decide) rfl⟩

/-- C4: every resource operation with a required identifier or required
string field rejects a blank (whitespace-only) input with the descriptive
local error, before any request is built and independently of the transport:
the result is the same for every transport `t`, and no part of it depends on
what a server would answer. -/
theorem c4_blank_input_local_error :
    (∀ (c : Client) (t : Transport) (ctx : GoContext) (id : String), trimSpace id = "" →
      c.deleteDomain t ctx id =
        (.error (.localErr "enzonix: domain id must not be empty"), c)) ∧
    (∀ (c : Client) (t : Transport) (ctx : GoContext) (id : String), trimSpace id = "" →
      c.checkNameserver t ctx id =
        (.error (.localErr "enzonix: domain id must not be empty"), c)) ∧
    (∀ (c : Client) (t : Transport) (ctx : GoContext) (id : String), trimSpace id = "" →
      c.listDomainRecords t ctx id =
        (.error (.localErr "enzonix: domain id must not be empty"), c)) ∧
    (∀ (c : Client) (t : Transport) (ctx : GoContext) (name : String), trimSpace name = "" →
      c.createDomain t ctx name =
        (.error (.localErr "enzonix: domain name must not be empty"), c)) ∧
    (∀ (c : Client) (t : Transport) (ctx : GoContext) (p : CreateRecordRequest),
      trimSpace p.domainID = "" →
      c.createRecord t ctx p =
        (.error (.localErr "enzonix: domain id must not be empty"), c)) ∧
    (∀ (c : Client) (t : Transport) (ctx : GoContext) (p : CreateRecordRequest),
      trimSpace p.domainID ≠ "" → trimSpace p.name = "" →
      c.createRecord t ctx p =
        (.error (.localErr "enzonix: record name must not be empty"), c)) ∧
    (∀ (c : Client) (t : Transport) (ctx : GoContext) (p : CreateRecordRequest),
      trimSpace p.domainID ≠ "" → trimSpace p.name ≠ "" → trimSpace p.rtype = "" →
      c.createRecord t ctx p =
        (.error (.localErr "enzonix: record type must not be empty"), c)) ∧
    (∀ (c : Client) (t : Transport) (ctx : GoContext) (p : CreateRecordRequest),
      trimSpace p.domainID ≠ "" → trimSpace p.name ≠ "" → trimSpace p.rtype ≠ "" →
      trimSpace p.value = "" →
      c.createRecord t ctx p =
        (.error (.localErr "enzonix: record value must not be empty"), c)) ∧
    (∀ (c : Client) (t : Transport) (ctx : GoContext) (rid : String) (p : UpdateRecordRequest),
      trimSpace rid = "" →
      c.updateRecord t ctx rid p =
        (.error (.localErr "enzonix: record id must not be empty"), c)) ∧
    (∀ (c : Client) (t : Transport) (ctx : GoContext) (rid : String), trimSpace rid = "" →
      c.deleteRecord t ctx rid =
        (.error (.localErr "enzonix: record id must not be empty"), c)) ∧
    (∀ (c : Client) (t : Transport) (ctx : GoContext) (z : String)
       (o : Option ZoneAPI.ListRecordsOptions), trimSpace z = "" →
      ZoneAPI.listRecords c t ctx z o =
        (.error (.localErr "enzonix: zone must not be empty"), c)) := by
  refine ⟨?_, ?_, ?_, ?_, ?_, ?_, ?_, ?_, ?_, ?_, ?_⟩
  · intro c t ctx id h
    simp [Client.deleteDomain, requireID, h]
  · intro c t ctx id h
    simp [Client.checkNameserver, requireID, h]
  · intro c t ctx id h
    simp [Client.listDomainRecords, requireID, h]
  · intro c t ctx name h
    simp [Client.createDomain, h]
  · intro c t ctx p h
    simp [Client.createRecord, requireID, h]
  · intro c t ctx p h1 h2
    simp [Client.createRecord, requireID, h1, h2]
  · intro c t ctx p h1 h2 h3
    simp [Client.createRecord, requireID, h1, h2, h3]
  · intro c t ctx p h1 h2 h3 h4
    simp [Client.createRecord, requireID, h1, h2, h3, h4]
  · intro c t ctx rid p h
    simp [Client.updateRecord, requireID, h]
  · intro c t ctx rid h
    simp [Client.deleteRecord, requireID, h]
  · intro c t ctx z o h
    simp [ZoneAPI.listRecords, requireZone, h]

/-- C4 witness: a blank domain id on DeleteDomain and a blank zone on the
zone-scoped ListRecords each fail locally, for a transport that only ever
answers 200. -/
theorem c4_blank_input_local_error_witness :
    sampleClient.deleteDomain sampleTransport .validCtx " " =
      (.error (.localErr "enzonix: domain id must not be empty"), sampleClient) ∧
    ZoneAPI.listRecords sampleClient sampleTransport .validCtx "" none =
      (.error (.localErr "enzonix: zone must not be empty"), sampleClient) :=
  ⟨c4_blank_input_local_error.1 sampleClient sampleTransport .validCtx " " (by decide),
   c4_blank_input_local_error.2.2.2.2.2.2.2.2.2.2 sampleClient sampleTransport .validCtx ""
     none (by decide)⟩

/-- C5: newRequest resolves the relative path against the configured base by
relative-reference resolution and then installs the encoded query; for base
https://example.test/api, path /zones/example.com/records and query q=dns
the request URL is exactly
https://example.test/zones/example.com/records?q=dns. -/
theorem c5_url_resolution :
    (∀ (c : Client) (m path : String) (q : Option Values) (b : Option Json) (rel : URL)
       (req : HttpRequest),
      parseURL path = some rel →
      c.newRequest .validCtx m path q b = .ok req →
      req.method = m ∧
      req.url = (match q with
                 | none => resolveReference c.baseURL rel
                 | some vs => { resolveReference c.baseURL rel with rawQuery := encodeValues vs })) ∧
    (NewClient "key" [some (withBaseURL "https://example.test/api")]).toOption.bind (fun c =>
        (c.newRequest .validCtx "GET" "/zones/example.com/records"
            (some [("q", ["dns"])]) none).toOption.map (fun r => urlString r.url)) =
      some "https://example.test/zones/example.com/records?q=dns" := by
  constructor
  · intro c m path q b rel req hrel hreq
    simp only [Client.newRequest, hrel, Except.ok.injEq] at hreq
    subst hreq
    exact ⟨rfl, rfl⟩
  · decide

/-- The concrete client, relative URL and request of the C5 example. -/
def sampleClient5 : Client :=
  okOr fallbackClient (NewClient "key" [some (withBaseURL "https://example.test/api")])

def sampleRel5 : URL := (parseURL "/zones/example.com/records").getD {}

def sampleReq5 : HttpRequest :=
  okOr fallbackReq
    (sampleClient5.newRequest .validCtx "GET" "/zones/example.com/records"
      (some [("q", ["dns"])]) none)

/-- C5 witness: the resolution clause applied to the spec's exact example. -/
theorem c5_url_resolution_witness :
    sampleReq5.method = "GET" ∧
    sampleReq5.url =
      { resolveReference sampleClient5.baseURL sampleRel5 with
        rawQuery := encodeValues [("q", ["dns"])] } :=
  c5_url_resolution.1 sampleClient5 "GET" "/zones/example.com/records"
    (some [("q", ["dns"])]) none sampleRel5 sampleReq5 rfl rfl

/-- C6: every request newRequest builds carries exactly
`Authorization: Bearer <credential>`; Content-Type is application/json iff a
JSON body was supplied; User-Agent is present iff the configured user agent
is non-empty.  The remaining conjuncts extend the Authorization guarantee to
the request each resource operation sends (including the two operations that
edit headers after newRequest). -/
theorem c6_required_headers :
    (∀ (c : Client) (ctx : GoContext) (m path : String) (q : Option Values) (b : Option Json)
       (req : HttpRequest), c.newRequest ctx m path q b = .ok req →
      hGet req.headers "Authorization" = some ("Bearer " ++ c.apiKey) ∧
      (hGet req.headers "Content-Type" = some "application/json" ↔ b.isSome = true) ∧
      (c.userAgent ≠ "" → hGet req.headers "User-Agent" = some c.userAgent) ∧
      (c.userAgent = "" → hGet req.headers "User-Agent" = none)) ∧
    (∀ (c : Client) (ctx : GoContext) (req : HttpRequest),
      listDomainsReq c ctx = .ok req ∨ rotateAPIKeyReq c ctx = .ok req →
      hGet req.headers "Authorization" = some ("Bearer " ++ c.apiKey)) ∧
    (∀ (c : Client) (ctx : GoContext) (s : String) (req : HttpRequest),
      createDomainReq c ctx s = .ok req ∨ deleteDomainReq c ctx s = .ok req ∨
      checkNameserverReq c ctx s = .ok req ∨ listDomainRecordsReq c ctx s = .ok req ∨
      deleteRecordReq c ctx s = .ok req →
      hGet req.headers "Authorization" = some ("Bearer " ++ c.apiKey)) ∧
    (∀ (c : Client) (ctx : GoContext) (s : String) (req : HttpRequest),
      exportBindZoneReq c ctx s = .ok req →
      hGet req.headers "Authorization" = some ("Bearer " ++ c.apiKey)) ∧
    (∀ (c : Client) (ctx : GoContext) (a b2 : String) (req : HttpRequest),
      importBindZoneReq c ctx a b2 = .ok req →
      hGet req.headers "Authorization" = some ("Bearer " ++ c.apiKey)) ∧
    (∀ (c : Client) (ctx : GoContext) (p : CreateRecordRequest) (req : HttpRequest),
      createRecordReq c ctx p = .ok req →
      hGet req.headers "Authorization" = some ("Bearer " ++ c.apiKey)) ∧
    (∀ (c : Client) (ctx : GoContext) (rid : String) (p : UpdateRecordRequest)
       (req : HttpRequest),
      updateRecordReq c ctx rid p = .ok req →
      hGet req.headers "Authorization" = some ("Bearer " ++ c.apiKey)) ∧
    (∀ (c : Client) (ctx : GoContext) (z : String) (o : Option ZoneAPI.ListRecordsOptions)
       (req : HttpRequest),
      ZoneAPI.listRecordsReq c ctx z o = .ok req →
      hGet req.headers "Authorization" = some ("Bearer " ++ c.apiKey)) ∧
    (∀ (c : Client) (ctx : GoContext) (z : String) (p : ZoneAPI.CreateRecordRequest)
       (req : HttpRequest),
      ZoneAPI.createRecordReq c ctx z p = .ok req →
      hGet req.headers "Authorization" = some ("Bearer " ++ c.apiKey)) ∧
    (∀ (c : Client) (ctx : GoContext) (z rid : String) (p : ZoneAPI.UpdateRecordRequest)
       (req : HttpRequest),
      ZoneAPI.updateRecordReq c ctx z rid p = .ok req →
      hGet req.headers "Authorization" = some ("Bearer " ++ c.apiKey)) ∧
    (∀ (c : Client) (ctx : GoContext) (z rid : String) (req : HttpRequest),
      ZoneAPI.deleteRecordReq c ctx z rid = .ok req →
      hGet req.headers "Authorization" = some ("Bearer " ++ c.apiKey)) := by
  refine ⟨newRequest_headers, ?_, ?_, ?_, ?_, ?_, ?_, ?_, ?_, ?_, ?_⟩
  · rintro c ctx req (h | h) <;> exact (newRequest_headers _ _ _ _ _ _ _ h).1
  · rintro c ctx s req (h | h | h | h | h) <;> exact (newRequest_headers _ _ _ _ _ _ _ h).1
  · intro c ctx s req hreq
    cases hin : c.newRequest ctx "GET"
        (clientAPIRoot ++ "/domains/" ++ pathEscape s ++ "/export/bind") none none with
    | error e => simp [exportBindZoneReq, hin] at hreq
    | ok r0 =>
      simp only [exportBindZoneReq, hin, Except.ok.injEq] at hreq
      subst hreq
      show hGet (hSet r0.headers "Accept" "text/plain") "Authorization" =
        some ("Bearer " ++ c.apiKey)
      rw [hGet_hSet_ne r0.headers "Accept" "text/plain" "Authorization" (by decide)]
      exact (newRequest_headers _ _ _ _ _ _ _ hin).1
  · intro c ctx a b2 req hreq
    cases hin : c.newRequest ctx "POST" (clientAPIRoot ++ "/import/bind") none none with
    | error e => simp [importBindZoneReq, hin] at hreq
    | ok r0 =>
      simp only [importBindZoneReq, hin, Except.ok.injEq] at hreq
      subst hreq
      show hGet (hSet r0.headers "Content-Type" b2) "Authorization" =
        some ("Bearer " ++ c.apiKey)
      rw [hGet_hSet_ne r0.headers "Content-Type" b2 "Authorization" (by decide)]
      exact (newRequest_headers _ _ _ _ _ _ _ hin).1
  · intro c ctx p req h
    exact (newRequest_headers _ _ _ _ _ _ _ h).1
  · intro c ctx rid p req h
    exact (newRequest_headers _ _ _ _ _ _ _ h).1
  · intro c ctx z o req h
    exact (newRequest_headers _ _ _ _ _ _ _ h).1
  · intro c ctx z p req h
    exact (newRequest_headers _ _ _ _ _ _ _ h).1
  · intro c ctx z rid p req h
    exact (newRequest_headers _ _ _ _ _ _ _ h).1
  · intro c ctx z rid req h
    exact (newRequest_headers _ _ _ _ _ _ _ h).1

/-- The request the C6 witness inspects. -/
def sampleReq6 : HttpRequest :=
  okOr fallbackReq (sampleClient.newRequest .validCtx "GET" "/status" none none)

/-- C6 witness: the header clause applied to a concrete request of the
default-configured client. -/
theorem c6_required_headers_witness :
    hGet sampleReq6.headers "Authorization" = some ("Bearer " ++ sampleClient.apiKey) ∧
    (hGet sampleReq6.headers "Content-Type" = some "application/json" ↔
      (none : Option Json).isSome = true) ∧
    (sampleClient.userAgent ≠ "" → hGet sampleReq6.headers "User-Agent" = some sampleClient.userAgent) ∧
    (sampleClient.userAgent = "" → hGet sampleReq6.headers "User-Agent" = none) :=
  c6_required_headers.1 sampleClient .validCtx "GET" "/status" none none sampleReq6 rfl

/-- C8: on any success status (< 400) ExportBindZone returns exactly the raw
body bytes, capped at 4 MiB, with no JSON decoding whatever the content —
the first clause holds for every transport and body, and when the body fits
under the cap the returned bytes equal the body exactly; the response path
of `Client.do` reads its body capped at 1 MiB (truncation invariance); the
two ceilings are 4 MiB and 1 MiB. -/
theorem c8_export_raw_capped :
    (∀ (c : Client) (t : Transport) (ctx : GoContext) (id : String) (req : HttpRequest),
      requireID id "domain id" = none →
      exportBindZoneReq c ctx id = .ok req →
      (t req).status < 400 →
      (c.exportBindZone t ctx id).1 = .ok (takeBytesStr readCapExport (t req).body) ∧
      (byteLen (t req).body.data ≤ readCapExport →
        (c.exportBindZone t ctx id).1 = .ok ((t req).body))) ∧
    (∀ (res : HttpResponse) (w : Bool),
      doResp res w = doResp { status := res.status, body := takeBytesStr readCapJSON res.body } w) ∧
    readCapExport = 4194304 ∧ readCapJSON = 1048576 := by
  refine ⟨?_, ?_, by decide, by decide⟩
  · intro c t ctx id req hid hreq hstatus
    have hmain : (c.exportBindZone t ctx id).1 = .ok (takeBytesStr readCapExport (t req).body) := by
      simp only [Client.exportBindZone, hid, hreq]
      rw [if_neg (Nat.not_le.mpr hstatus)]
    refine ⟨hmain, ?_⟩
    intro hfit
    rw [hmain]
    rw [show takeBytesStr readCapExport (t req).body = (t req).body from
      String.ext (takeBytesL_of_byteLen_le (t req).body.data readCapExport hfit)]
  · intro res w
    simp only [doResp, takeBytesStr_idem]

/-- The transport and request of the C8 witness. -/
def exportTransport : Transport := fun _ => { status := 200, body := "$ORIGIN example.com.\n" }

def sampleExportReq : HttpRequest :=
  okOr fallbackReq (exportBindZoneReq sampleClient .validCtx "domain-1")

/-- C8 witness: a 200 export response hands back the zone text unchanged. -/
theorem c8_export_raw_capped_witness :
    (sampleClient.exportBindZone exportTransport .validCtx "domain-1").1 =
      .ok (takeBytesStr readCapExport (exportTransport sampleExportReq).body) :=
  (c8_export_raw_capped.1 sampleClient exportTransport .validCtx "domain-1" sampleExportReq
    rfl rfl (by decide)).1

/-- C7 counterexample: `trimZone` uses strings.TrimSuffix, which strips only
ONE trailing dot, so a zone name carrying two trailing dots does not build
the same path as the bare name. -/
theorem c7_trailing_dots_counterexample :
    zoneRecordsPath "example.com.." = "/zones/example.com./records" ∧
    zoneRecordsPath "example.com" = "/zones/example.com/records" ∧
    zoneRecordsPath "example.com.." ≠ zoneRecordsPath "example.com" :=
  ⟨by decide, by decide, by decide⟩

/-- C7 (amended): for the zone-scoped record paths, whitespace is trimmed
and then exactly one trailing dot is stripped before path construction: for
a whitespace-trimmed zone name that does not already end in a dot, appending
one dot yields the same paths, and the zone "example.com." yields the path
/zones/example.com/records. -/
theorem c7_single_trailing_dot_stripped :
    (∀ z rid : String, trimSpace z = z → endsInDot z = false →
      zoneRecordsPath (z ++ ".") = zoneRecordsPath z ∧
      zoneRecordPath (z ++ ".") rid = zoneRecordPath z rid) ∧
    zoneRecordsPath "example.com." = "/zones/example.com/records" := by
  constructor
  · intro z rid h hd
    have hz : trimZone (z ++ ".") = trimZone z := by
      rw [trimZone_append_dot z h, trimZone_self z h hd]
    constructor
    · unfold zoneRecordsPath
      rw [hz]
    · unfold zoneRecordPath zoneRecordsPath
      rw [hz]
  · decide

/-- C7 witness: the amended statement applied to the concrete zone
"example.com" and record "rec-1". -/
theorem c7_single_trailing_dot_stripped_witness :
    trimSpace "example.com" = "example.com" ∧ endsInDot "example.com" = false ∧
    (zoneRecordsPath ("example.com" ++ ".") = zoneRecordsPath "example.com" ∧
     zoneRecordPath ("example.com" ++ ".") "rec-1" = zoneRecordPath "example.com" "rec-1") :=
  ⟨by decide, by decide,
   c7_single_trailing_dot_stripped.1 "example.com" "rec-1" (by decide) (by decide)⟩

/-- C9: in the state-passing embedding of the Go methods (which contain no
assignment through the receiver), every resource operation returns the
Client value unchanged, whatever the transport answers: the configuration
(base URL, credential, user agent, HTTP client handle) observed after any
call equals the one observed before it. -/
theorem c9_config_immutable :
    (∀ (c : Client) (t : Transport) (ctx : GoContext),
       (c.listDomains t ctx).2 = c ∧ (c.rotateAPIKey t ctx).2 = c) ∧
    (∀ (c : Client) (t : Transport) (ctx : GoContext) (s : String),
       (c.createDomain t ctx s).2 = c ∧ (c.deleteDomain t ctx s).2 = c ∧
       (c.checkNameserver t ctx s).2 = c ∧ (c.listDomainRecords t ctx s).2 = c ∧
       (c.deleteRecord t ctx s).2 = c ∧ (c.exportBindZone t ctx s).2 = c) ∧
    (∀ (c : Client) (t : Transport) (ctx : GoContext) (p : CreateRecordRequest),
       (c.createRecord t ctx p).2 = c) ∧
    (∀ (c : Client) (t : Transport) (ctx : GoContext) (s : String) (p : UpdateRecordRequest),
       (c.updateRecord t ctx s p).2 = c) ∧
    (∀ (c : Client) (t : Transport) (ctx : GoContext) (a b : String),
       (c.importBindZone t ctx a b).2 = c ∧ (ZoneAPI.deleteRecord c t ctx a b).2 = c) ∧
    (∀ (c : Client) (t : Transport) (ctx : GoContext) (z : String)
       (o : Option ZoneAPI.ListRecordsOptions), (ZoneAPI.listRecords c t ctx z o).2 = c) ∧
    (∀ (c : Client) (t : Transport) (ctx : GoContext) (z : String)
       (p : ZoneAPI.CreateRecordRequest), (ZoneAPI.createRecord c t ctx z p).2 = c) ∧
    (∀ (c : Client) (t : Transport) (ctx : GoContext) (z r : String)
       (p : ZoneAPI.UpdateRecordRequest), (ZoneAPI.updateRecord c t ctx z r p).2 = c) :=
  ⟨fun _ _ _ => ⟨rfl, rfl⟩, fun _ _ _ _ => ⟨rfl, rfl, rfl, rfl, rfl, rfl⟩,
   fun _ _ _ _ => rfl, fun _ _ _ _ _ => rfl, fun _ _ _ _ _ => ⟨rfl, rfl⟩,
   fun _ _ _ _ _ => rfl, fun _ _ _ _ _ => rfl, fun _ _ _ _ _ _ => rfl⟩

/-- C10: NewClient skips nil options without invoking them: any options list
gives the same result as the list with its nil entries removed, and in
particular `NewClient("key", nil)` succeeds with the defaults. -/
theorem c10_nil_options_skipped :
    (∀ (key : String) (opts : List ClientOption),
       NewClient key opts = NewClient key (opts.filter Option.isSome)) ∧
    NewClient "key" [Option.none] = NewClient "key" [] ∧
    (NewClient "key" [Option.none]).toOption.isSome = true := by
  refine ⟨?_, rfl, by decide⟩
  intro key opts
  simp only [NewClient, applyOpts_filter]

end Enzonix
